import Mathlib

/- Verification development for the statistics/fidelity post-processing core
   of the teleportation-noise-thresholds repository.

   Shallow embedding conventions:
   * A bitstring is a list of booleans; index 0 is the leftmost character of
     the Python string, and true encodes the character 1.
   * A CountTable is the association list underlying a Python dict from
     bitstring to shot count; dict semantics (distinct keys, insertion
     order) are carried as hypotheses where a statement needs them.
   * Exact rational arithmetic stands in for Python float arithmetic;
     square roots and base-2 logarithms are Mathlib reals.
   * Python code that raises (division by zero, index out of range) is
     embedded as an Option-valued function that returns none exactly on the
     raising inputs. -/

/-- A measured bitstring: index 0 is the leftmost character of the Python
string (Qiskit prints classical bits most-significant first). -/
abbrev Bitstring := List Bool

/-- A CountTable: association list from bitstring to count, the underlying
data of a Python dict mapping bitstrings to shot counts. -/
abbrev CountTable := List (Bitstring × ℕ)

/-- counts.get(k, 0): the count stored for key k, defaulting to 0 when the
key is absent (first match, which is the only match for dict data). -/
def getCount : CountTable → Bitstring → ℕ
  | [], _ => 0
  | kc :: t, k => if kc.1 = k then kc.2 else getCount t k

/-- sum(counts.values()): the total number of shots recorded in a table. -/
def totalShots (t : CountTable) : ℕ :=
  (t.map (fun kc => kc.2)).sum

namespace Tier1V3

/-- Return value of compute_fidelity in scripts/tier1v3_trotter_sweep.py:
the tuple (fidelity, sigma_f, p_success). -/
structure FidelityResult where
  fidelity : ℚ
  sigma_f : ℝ
  p_success : ℚ

/-- Body of compute_fidelity (scripts/tier1v3_trotter_sweep.py, lines
150-156): success = counts.get(0, 0); p = success / shots;
fidelity = max(2 p - 1, 0); sigma_f = 2 sqrt(max(p (1 - p), 0) / shots).
Defined for the case where the division by shots is performed. -/
noncomputable def fidCore (counts : CountTable) (shots : ℕ) : FidelityResult :=
  let success : ℕ := getCount counts [false]
  let p_success : ℚ := (success : ℚ) / (shots : ℚ)
  { fidelity := max (2 * p_success - 1) 0
    sigma_f :=
      2 * Real.sqrt (((max (p_success * (1 - p_success)) 0 / (shots : ℚ) : ℚ)) : ℝ)
    p_success := p_success }

/-- compute_fidelity of scripts/tier1v3_trotter_sweep.py.  Python raises
ZeroDivisionError when shots = 0, embedded as none. -/
noncomputable def compute_fidelity (counts : CountTable) (shots : ℕ) :
    Option FidelityResult :=
  if shots = 0 then none else some (fidCore counts shots)

end Tier1V3

namespace Tier1Depth

/-- Body of compute_fidelity (scripts/tier1_depth_sweep.py, lines 152-167):
success = counts.get(0, 0); p = success / shots; fidelity = 2 p - 1 with no
clipping; sigma_f = 2 sqrt(p (1 - p) / shots).  Defined for the case where
the division by shots is performed. -/
noncomputable def fidCore (counts : CountTable) (shots : ℕ) :
    Tier1V3.FidelityResult :=
  let success : ℕ := getCount counts [false]
  let p_success : ℚ := (success : ℚ) / (shots : ℚ)
  { fidelity := 2 * p_success - 1
    sigma_f :=
      2 * Real.sqrt (((p_success * (1 - p_success) / (shots : ℚ) : ℚ)) : ℝ)
    p_success := p_success }

/-- compute_fidelity of scripts/tier1_depth_sweep.py.  Python raises
ZeroDivisionError when shots = 0, embedded as none. -/
noncomputable def compute_fidelity (counts : CountTable) (shots : ℕ) :
    Option Tier1V3.FidelityResult :=
  if shots = 0 then none else some (fidCore counts shots)

end Tier1Depth

namespace TrotterNoisy

/-- Final step of simulate_wormhole (scripts/trotter_noisy_corrected.py,
line 199): fidelity = max(0, 2 p - 1), as a function of the probability
p_bob0 computed upstream from the simulated density matrix. -/
def fidelity_from_p (p_bob0 : ℚ) : ℚ := max 0 (2 * p_bob0 - 1)

end TrotterNoisy

/-- C1 counterexample: on the single-bit CountTable mapping 0 to 40 and
1 to 60, with 100 shots, the compute_fidelity of scripts/tier1_depth_sweep.py
has raw success probability 2/5 < 1/2 yet returns fidelity -(1/5), a
negative number rather than 0, so the claim as stated is false for this
cited evaluator. -/
theorem c1_counterexample :
    Tier1Depth.compute_fidelity [([false], 40), ([true], 60)] 100 =
      some (Tier1Depth.fidCore [([false], 40), ([true], 60)] 100) ∧
    (Tier1Depth.fidCore [([false], 40), ([true], 60)] 100).p_success = 2 / 5 ∧
    (Tier1Depth.fidCore [([false], 40), ([true], 60)] 100).fidelity = -(1 / 5) ∧
    (Tier1Depth.fidCore [([false], 40), ([true], 60)] 100).fidelity < 0 := by
  refine ⟨by norm_num [Tier1Depth.compute_fidelity],
    by norm_num [Tier1Depth.fidCore, getCount],
    by norm_num [Tier1Depth.fidCore, getCount],
    by norm_num [Tier1Depth.fidCore, getCount]⟩

/-- C1 amended: for every single-bit CountTable and positive shot count, the
clipping evaluators (scripts/tier1v3_trotter_sweep.py and the fidelity map of
scripts/trotter_noisy_corrected.py) return fidelity exactly 0 whenever the
raw success probability is below 1/2 and never return a negative fidelity,
while the evaluator of scripts/tier1_depth_sweep.py returns the raw value
2 p - 1 without clipping. -/
theorem c1_amended (counts : CountTable) (shots : ℕ) (h : shots ≠ 0) :
    Tier1V3.compute_fidelity counts shots = some (Tier1V3.fidCore counts shots) ∧
    ((Tier1V3.fidCore counts shots).p_success < 1 / 2 →
      (Tier1V3.fidCore counts shots).fidelity = 0) ∧
    0 ≤ (Tier1V3.fidCore counts shots).fidelity ∧
    (∀ p : ℚ, (p < 1 / 2 → TrotterNoisy.fidelity_from_p p = 0) ∧
      0 ≤ TrotterNoisy.fidelity_from_p p) ∧
    (Tier1Depth.fidCore counts shots).fidelity =
      2 * (Tier1Depth.fidCore counts shots).p_success - 1 := by
  refine ⟨by simp [Tier1V3.compute_fidelity, h], ?_, ?_, ?_, rfl⟩
  · intro hp
    simp only [Tier1V3.fidCore] at hp ⊢
    exact max_eq_right (by linarith)
  · exact le_max_right _ _
  · intro p
    constructor
    · intro hp
      exact max_eq_left (by linarith)
    · exact le_max_left _ _

/-- C1 witness: the amended statement instantiated on the CountTable mapping
0 to 70 and 1 to 30 with 100 shots. -/
theorem c1_witness :
    (100 : ℕ) ≠ 0 ∧
    (Tier1V3.compute_fidelity [([false], 70), ([true], 30)] 100 =
        some (Tier1V3.fidCore [([false], 70), ([true], 30)] 100) ∧
      ((Tier1V3.fidCore [([false], 70), ([true], 30)] 100).p_success < 1 / 2 →
        (Tier1V3.fidCore [([false], 70), ([true], 30)] 100).fidelity = 0) ∧
      0 ≤ (Tier1V3.fidCore [([false], 70), ([true], 30)] 100).fidelity ∧
      (∀ p : ℚ, (p < 1 / 2 → TrotterNoisy.fidelity_from_p p = 0) ∧
        0 ≤ TrotterNoisy.fidelity_from_p p) ∧
      (Tier1Depth.fidCore [([false], 70), ([true], 30)] 100).fidelity =
        2 * (Tier1Depth.fidCore [([false], 70), ([true], 30)] 100).p_success - 1) :=
  ⟨by decide, c1_amended [([false], 70), ([true], 30)] 100 (by decide)⟩

/-- C3: for every single-bit CountTable with positive shots and success
count at most the shot count, both simplified evaluators return
sigma_f = 2 sqrt(p (1 - p) / shots); and on the CountTable mapping 0 to 60
and 1 to 40 with 100 shots they return fidelity 1/5 = 0.2 with sigma_f
within 1/10000 of 0.09798. -/
theorem c3_sigma (counts : CountTable) (shots : ℕ) (h : shots ≠ 0)
    (hle : getCount counts [false] ≤ shots) :
    (Tier1V3.fidCore counts shots).sigma_f =
      2 * Real.sqrt (((Tier1V3.fidCore counts shots).p_success : ℝ) *
        (1 - ((Tier1V3.fidCore counts shots).p_success : ℝ)) / (shots : ℝ)) ∧
    (Tier1Depth.fidCore counts shots).sigma_f =
      2 * Real.sqrt (((Tier1Depth.fidCore counts shots).p_success : ℝ) *
        (1 - ((Tier1Depth.fidCore counts shots).p_success : ℝ)) / (shots : ℝ)) ∧
    (Tier1V3.fidCore [([false], 60), ([true], 40)] 100).fidelity = 1 / 5 ∧
    (Tier1Depth.fidCore [([false], 60), ([true], 40)] 100).fidelity = 1 / 5 ∧
    |(Tier1V3.fidCore [([false], 60), ([true], 40)] 100).sigma_f -
        9798 / 100000| < 1 / 10000 := by
  have hshots : (0 : ℚ) < (shots : ℚ) := by
    exact_mod_cast Nat.pos_of_ne_zero h
  have hp0 : (0 : ℚ) ≤ (getCount counts [false] : ℚ) / (shots : ℚ) :=
    div_nonneg (by positivity) hshots.le
  have hp1 : (getCount counts [false] : ℚ) / (shots : ℚ) ≤ 1 := by
    rw [div_le_one hshots]
    exact_mod_cast hle
  have hmax : max (((getCount counts [false] : ℚ) / (shots : ℚ)) *
      (1 - (getCount counts [false] : ℚ) / (shots : ℚ))) 0 =
      ((getCount counts [false] : ℚ) / (shots : ℚ)) *
      (1 - (getCount counts [false] : ℚ) / (shots : ℚ)) :=
    max_eq_left (mul_nonneg hp0 (by linarith))
  have hconc : |(Tier1V3.fidCore [([false], 60), ([true], 40)] 100).sigma_f -
      9798 / 100000| < 1 / 10000 := by
    have hval : (Tier1V3.fidCore [([false], 60), ([true], 40)] 100).sigma_f =
        2 * Real.sqrt ((3 / 1250 : ℝ)) := by
      simp only [Tier1V3.fidCore]
      norm_num [getCount]
    rw [hval]
    have hub : Real.sqrt ((3 / 1250 : ℝ)) < 48995 / 1000000 := by
      rw [Real.sqrt_lt' (by norm_num)]
      norm_num
    have hlb : (48985 / 1000000 : ℝ) < Real.sqrt ((3 / 1250 : ℝ)) := by
      rw [Real.lt_sqrt (by norm_num)]
      norm_num
    rw [abs_lt]
    constructor <;> nlinarith
  refine ⟨?_, ?_, by norm_num [Tier1V3.fidCore, getCount],
    by norm_num [Tier1Depth.fidCore, getCount], hconc⟩
  · simp only [Tier1V3.fidCore, hmax]
    push_cast
    ring_nf
  · simp only [Tier1Depth.fidCore]
    push_cast
    ring_nf

/-- C3 witness: the sigma statement instantiated on the CountTable mapping
0 to 60 and 1 to 40 with 100 shots. -/
theorem c3_witness :
    ((100 : ℕ) ≠ 0 ∧ getCount [([false], 60), ([true], 40)] [false] ≤ 100) ∧
    (Tier1V3.fidCore [([false], 60), ([true], 40)] 100).sigma_f =
      2 * Real.sqrt (((Tier1V3.fidCore [([false], 60), ([true], 40)] 100).p_success : ℝ) *
        (1 - ((Tier1V3.fidCore [([false], 60), ([true], 40)] 100).p_success : ℝ)) /
        ((100 : ℕ) : ℝ)) :=
  ⟨⟨by decide, by decide⟩,
    (c3_sigma [([false], 60), ([true], 40)] 100 (by decide) (by decide)).1⟩

namespace Teleport

/-- Classical correction applied per bitstring by compute_fidelity in
scripts/teleportation_sweep.py (lines 111-137) and
scripts/wormhole_hardware_forte1.py (lines 79-100), which contain the same
function: the Bob bit is the character at position 0 and the Alice bit the
character at position 1 of the Qiskit string (printed c2 c1 c0, most
significant first); Bob is flipped exactly when Alice is 1.  The Python
space stripping is a no-op here because embedded bitstrings carry no
separator characters; positions are read with a default that is never used
on the 3-bit tables the function is applied to. -/
def correctedBob (bs : Bitstring) : Bool :=
  let bob_raw := bs.getD 0 false
  let alice := bs.getD 1 false
  if alice then !bob_raw else bob_raw

/-- compute_fidelity of scripts/teleportation_sweep.py and
scripts/wormhole_hardware_forte1.py: the fraction of shots whose corrected
Bob bit equals the expected value.  Python raises ZeroDivisionError on an
empty table; the statement carries the positive-total hypothesis instead. -/
def compute_fidelity (counts : CountTable) (expected_bob : Bool) : ℚ :=
  let total : ℕ := totalShots counts
  let correct : ℕ :=
    ((counts.filter (fun kc => correctedBob kc.1 == expected_bob)).map
      (fun kc => kc.2)).sum
  (correct : ℚ) / (total : ℚ)

/-- Flip the message-basis bit (position 2) of every key of a table. -/
def flipMsg (counts : CountTable) : CountTable :=
  counts.map (fun kc => (kc.1.set 2 (!(kc.1.getD 2 false)), kc.2))

/-- The per-shot correction is the exclusive or of the raw Bob bit with the
Alice syndrome bit. -/
theorem correctedBob_eq_xor (bs : Bitstring) :
    correctedBob bs = xor (bs.getD 0 false) (bs.getD 1 false) := by
  simp only [correctedBob]
  cases bs.getD 0 false <;> cases bs.getD 1 false <;> rfl

end Teleport

/-- C2: for every 3-bit CountTable with positive total shots and every
expected Bob value, the corrected-fidelity evaluator returns the fraction of
shots whose target bit xor syndrome bit equals the expected value (the
target is flipped exactly when the syndrome bit is 1), the message-basis
bit at position 2 has no effect on the result, and on a table where every
shot has syndrome bit 1 and target bit 0 with expected value 0 the result
is 0. -/
theorem c2_corrected_fidelity :
    (∀ (counts : CountTable) (e : Bool),
      totalShots counts ≠ 0 →
      (∀ kc ∈ counts, (kc.1 : Bitstring).length = 3) →
      Teleport.compute_fidelity counts e =
        (((((counts.filter (fun kc =>
            xor (kc.1.getD 0 false) (kc.1.getD 1 false) == e)).map
          (fun kc => kc.2)).sum : ℕ) : ℚ)) / (totalShots counts : ℚ) ∧
      Teleport.compute_fidelity (Teleport.flipMsg counts) e =
        Teleport.compute_fidelity counts e) ∧
    Teleport.compute_fidelity
      [([false, true, true], 70), ([false, true, false], 30)] false = 0 := by
  constructor
  · intro counts e _htot hlen
    constructor
    · simp only [Teleport.compute_fidelity]
      have hfc : List.filter (fun kc => Teleport.correctedBob kc.1 == e) counts =
          List.filter (fun kc =>
            xor (kc.1.getD 0 false) (kc.1.getD 1 false) == e) counts := by
        apply List.filter_congr
        intro kc _hkc
        rw [Teleport.correctedBob_eq_xor]
      rw [hfc]
    · have hcor : ∀ kc ∈ counts,
          Teleport.correctedBob (kc.1.set 2 (!(kc.1.getD 2 false))) =
            Teleport.correctedBob kc.1 := by
        intro kc hkc
        obtain ⟨a, b, c, habc⟩ := List.length_eq_three.mp (hlen kc hkc)
        rw [habc]
        rfl
      simp only [Teleport.compute_fidelity]
      have htot : totalShots (Teleport.flipMsg counts) = totalShots counts := by
        simp [totalShots, Teleport.flipMsg, List.map_map, Function.comp_def]
      rw [htot]
      have hsum :
          (((Teleport.flipMsg counts).filter
            (fun kc => Teleport.correctedBob kc.1 == e)).map
              (fun kc => kc.2)).sum =
          ((counts.filter (fun kc => Teleport.correctedBob kc.1 == e)).map
            (fun kc => kc.2)).sum := by
        rw [Teleport.flipMsg, List.filter_map, List.map_map]
        have hfc : List.filter
            ((fun kc => Teleport.correctedBob kc.1 == e) ∘
              (fun kc => ((kc.1.set 2 (!(kc.1.getD 2 false)) : Bitstring), kc.2)))
            counts =
            List.filter (fun kc => Teleport.correctedBob kc.1 == e) counts := by
          apply List.filter_congr
          intro kc hkc
          show (Teleport.correctedBob (kc.1.set 2 (!(kc.1.getD 2 false))) == e) =
            (Teleport.correctedBob kc.1 == e)
          rw [hcor kc hkc]
        rw [hfc]
        rfl
      rw [hsum]
  · norm_num [Teleport.compute_fidelity, Teleport.correctedBob, totalShots]

/-- C2 witness: the general statement instantiated on a 3-bit table with 60
and 40 shots on the two outcomes with Bob bit 0 and Alice bit 0, expected
value 0. -/
theorem c2_witness :
    (totalShots [([false, false, false], 60), ([true, false, true], 40)] ≠ 0 ∧
      (∀ kc ∈ ([([false, false, false], 60), ([true, false, true], 40)] :
        CountTable), (kc.1 : Bitstring).length = 3)) ∧
    Teleport.compute_fidelity
      [([false, false, false], 60), ([true, false, true], 40)] false =
      ((((([([false, false, false], 60), ([true, false, true], 40)] :
          CountTable).filter (fun kc =>
            xor (kc.1.getD 0 false) (kc.1.getD 1 false) == false)).map
        (fun kc => kc.2)).sum : ℕ) : ℚ) /
        (totalShots [([false, false, false], 60), ([true, false, true], 40)] : ℚ) :=
  ⟨⟨by decide, by decide⟩,
    ((c2_corrected_fidelity.1 _ false (by decide) (by decide)).1)⟩

namespace AnalyzeResults

/-- The additive floor 1e-15 used inside the base-2 logarithm of
compute_metrics. -/
noncomputable def eps : ℝ := 1 / 10 ^ 15

/-- Per-entry observables computed by compute_metrics
(pasqal_native/scripts/analyze_results.py, lines 64-117). -/
structure Metrics where
  rydberg_density : ℚ
  ground_prob : ℚ
  entropy : ℝ
  n_distinct : ℕ
  per_qubit_excitation : List ℚ

/-- len(next(iter(counts))): the length of the first key of the table;
only used on nonempty tables (Python would raise StopIteration on an
empty dict, and the embedding returns none there because the total is 0). -/
def nQubits (counts : CountTable) : ℕ :=
  (counts.head?.map (fun kc => kc.1.length)).getD 0

/-- Whether some key has a 1 bit at or beyond the first-key length; the
per-qubit loop of compute_metrics then writes outside the numpy vector of
size n_qubits and Python raises IndexError. -/
def indexOverflow (counts : CountTable) : Bool :=
  counts.any (fun kc => (kc.1.drop (nQubits counts)).any (fun b => b))

/-- Mean Rydberg density: sum over keys of count times the fraction of 1
bits, divided by the total. -/
def meanDensity (counts : CountTable) (total : ℕ) : ℚ :=
  ((counts.map (fun kc =>
    ((kc.1.count true : ℚ) / (nQubits counts : ℚ)) * (kc.2 : ℚ))).sum) /
    (total : ℚ)

/-- Per-qubit excitation vector: for each position below n_qubits, the
summed count of keys whose bit there is 1, divided by the total. -/
def perQubit (counts : CountTable) (total : ℕ) : List ℚ :=
  (List.range (nQubits counts)).map (fun i =>
    ((((counts.filter (fun kc => kc.1.getD i false)).map
      (fun kc => kc.2)).sum : ℕ) : ℚ) / (total : ℚ))

/-- Shannon entropy with the 1e-15 floor:
minus the sum over keys of p log2(p + eps), p = count / total. -/
noncomputable def entropyOf (counts : CountTable) (total : ℕ) : ℝ :=
  -((counts.map (fun kc =>
      ((kc.2 : ℝ) / (total : ℝ)) *
        Real.logb 2 ((kc.2 : ℝ) / (total : ℝ) + eps))).sum)

/-- Body of the per-entry metrics computation of compute_metrics
(pasqal_native/scripts/analyze_results.py, lines 64-117).  Python raises
ZeroDivisionError when the total is 0 (and StopIteration on an empty dict)
and IndexError when a key has a 1 bit at or beyond the first-key length;
both failure modes are embedded as none.  No validation of key-length
consistency is performed. -/
noncomputable def compute_metrics (counts : CountTable) : Option Metrics :=
  let total := totalShots counts
  if total = 0 then none
  else if indexOverflow counts then none
  else some
    { rydberg_density := meanDensity counts total
      ground_prob :=
        (getCount counts (List.replicate (nQubits counts) false) : ℚ) /
          (total : ℚ)
      entropy := entropyOf counts total
      n_distinct := counts.length
      per_qubit_excitation := perQubit counts total }

end AnalyzeResults

/-- Looking up a key placed after entries that do not carry it returns the
count stored with that key. -/
theorem getCount_append_notin (l₁ l₂ : CountTable) (k0 : Bitstring) (c : ℕ)
    (h : k0 ∉ l₁.map Prod.fst) : getCount (l₁ ++ (k0, c) :: l₂) k0 = c := by
  induction l₁ with
  | nil => simp [getCount]
  | cons kc l ih =>
    have h1 : k0 ≠ kc.1 := fun he => h (by simp [he])
    have h2 : k0 ∉ l.map Prod.fst := fun hm => h (by simp [hm])
    simp only [List.cons_append, getCount, List.append_eq]
    rw [if_neg (fun he => h1 he.symm), ih h2]

/-- A total of zero means every stored count is zero. -/
theorem totalShots_eq_zero_iff (t : CountTable) :
    totalShots t = 0 ↔ ∀ kc ∈ t, kc.2 = 0 := by
  simp only [totalShots, List.sum_eq_zero_iff, List.mem_map]
  constructor
  · intro h kc hkc
    exact h kc.2 ⟨kc, hkc, rfl⟩
  · intro h x hx
    obtain ⟨kc, hkc, he⟩ := hx
    rw [← he]
    exact h kc hkc

/-- In a table with pairwise-distinct keys in which every key with a
nonzero count equals k0, either every count is zero, or the table splits
around a single entry at key k0 carrying the whole total. -/
theorem zeroOutside_decomp (k0 : Bitstring) (t : CountTable)
    (hnd : (t.map Prod.fst).Nodup)
    (hz : ∀ kc ∈ t, kc.2 ≠ 0 → kc.1 = k0) :
    (∀ kc ∈ t, kc.2 = 0) ∨
    ∃ l₁ l₂ : CountTable, t = l₁ ++ (k0, totalShots t) :: l₂ ∧
      (∀ kc ∈ l₁ ++ l₂, kc.2 = 0) ∧ k0 ∉ l₁.map Prod.fst := by
  induction t with
  | nil => exact Or.inl (by simp)
  | cons kc t ih =>
    obtain ⟨k, c⟩ := kc
    have hnd' : (t.map Prod.fst).Nodup := (List.nodup_cons.mp (by simpa using hnd)).2
    have hknot : k ∉ t.map Prod.fst := (List.nodup_cons.mp (by simpa using hnd)).1
    by_cases hc : c = 0
    · rcases ih hnd' (fun kc h hk => hz kc (List.mem_cons_of_mem _ h) hk) with
        hall | ⟨l₁, l₂, ht, hzz, hnotin⟩
      · left
        intro kc hkc
        rcases List.mem_cons.mp hkc with he | hm
        · rw [he]; exact hc
        · exact hall kc hm
      · right
        have hky : k ≠ k0 := by
          intro hkk
          apply hknot
          rw [hkk, ht]
          simp
        have htot : totalShots ((k, c) :: t) = totalShots t := by
          simp [totalShots, hc]
        refine ⟨(k, c) :: l₁, l₂, ?_, ?_, ?_⟩
        · rw [htot, List.cons_append, ← ht]
        · intro kc hkc
          rw [List.cons_append, List.mem_cons] at hkc
          rcases hkc with he | hm
          · rw [he]; exact hc
          · exact hzz kc hm
        · intro hmem
          rw [List.map_cons, List.mem_cons] at hmem
          rcases hmem with he | hm
          · exact hky he.symm
          · exact hnotin hm
    · have hk : k = k0 := hz (k, c) (List.mem_cons_self _ _) hc
      have htail : ∀ kc ∈ t, kc.2 = 0 := by
        intro kc hkc
        by_contra hne
        have hkc0 : kc.1 = k0 := hz kc (List.mem_cons_of_mem _ hkc) hne
        apply hknot
        rw [hk]
        exact List.mem_map.mpr ⟨kc, hkc, hkc0⟩
      right
      have hsum : totalShots t = 0 := (totalShots_eq_zero_iff t).mpr htail
      refine ⟨[], t, ?_, by simpa using htail, by simp⟩
      have hsum' : (List.map (fun kc => kc.2) t).sum = 0 := hsum
      have htotc : totalShots ((k, c) :: t) = c := by
        simp [totalShots, hsum']
      rw [htotc, hk]
      simp

/-- C8 counterexample: on the CountTable with key 00 at count 100 and key
01 at count 0, compute_metrics returns n_distinct = 2, the number of all
keys, even though only one key has a count strictly greater than 0, so a
key with count 0 does contribute and the claim as stated is false. -/
theorem c8_counterexample :
    (AnalyzeResults.compute_metrics
      [([false, false], 100), ([false, true], 0)]).map
        AnalyzeResults.Metrics.n_distinct = some 2 ∧
    (([([false, false], 100), ([false, true], 0)] : CountTable).filter
      (fun kc => 0 < kc.2)).length = 1 ∧ (1 : ℕ) < 2 := by
  refine ⟨?_, by decide, by decide⟩
  norm_num [AnalyzeResults.compute_metrics, totalShots,
    AnalyzeResults.indexOverflow, AnalyzeResults.nQubits]

/-- C8 amended: for every CountTable accepted by the Observable Extractor
(positive total, no index overflow), n_distinct equals the number of keys
present in the table, whether or not their counts are 0. -/
theorem c8_amended (counts : CountTable) (h : totalShots counts ≠ 0)
    (hov : AnalyzeResults.indexOverflow counts = false) :
    (AnalyzeResults.compute_metrics counts).map
      AnalyzeResults.Metrics.n_distinct = some counts.length := by
  simp [AnalyzeResults.compute_metrics, h, hov]

/-- C8 witness: the amended statement instantiated on the two-key table of
the counterexample. -/
theorem c8_witness :
    (totalShots [([false, false], 100), ([false, true], 0)] ≠ 0 ∧
      AnalyzeResults.indexOverflow
        [([false, false], 100), ([false, true], 0)] = false) ∧
    (AnalyzeResults.compute_metrics
      [([false, false], 100), ([false, true], 0)]).map
        AnalyzeResults.Metrics.n_distinct =
      some (List.length
        ([([false, false], 100), ([false, true], 0)] : CountTable)) :=
  ⟨⟨by decide, by decide⟩, c8_amended _ (by decide) (by decide)⟩

/-- The base-2 logarithm of 1 + eps is trapped between 0 and 2 eps. -/
theorem logb_one_add_eps_bounds :
    0 ≤ Real.logb 2 (1 + AnalyzeResults.eps) ∧
    Real.logb 2 (1 + AnalyzeResults.eps) ≤ 2 * AnalyzeResults.eps := by
  have heps : (0 : ℝ) < AnalyzeResults.eps := by norm_num [AnalyzeResults.eps]
  constructor
  · exact Real.logb_nonneg (by norm_num) (by linarith)
  · rw [Real.logb]
    have hlog : Real.log (1 + AnalyzeResults.eps) ≤ AnalyzeResults.eps := by
      have hb := Real.log_le_sub_one_of_pos
        (show (0 : ℝ) < 1 + AnalyzeResults.eps by linarith)
      linarith
    have hlog2 : (1 / 2 : ℝ) ≤ Real.log 2 := by
      have hd := Real.log_two_gt_d9
      linarith
    have hdl : Real.log (1 + AnalyzeResults.eps) / Real.log 2 ≤
        AnalyzeResults.eps / (1 / 2) :=
      div_le_div₀ heps.le hlog (by norm_num) hlog2
    have he : AnalyzeResults.eps / (1 / 2) = 2 * AnalyzeResults.eps := by ring
    linarith [hdl, he ▸ hdl]

/-- C4 counterexample: the CountTable with the all-zero 3-bit key at count
100 and a second key at count 0 has the all-zero bitstring as its only
outcome with nonzero count, yet the Observable Extractor reports
n_distinct = 2, not 1, so the claim as stated is false. -/
theorem c4_counterexample :
    (([([false, false, false], 100), ([false, true, true], 0)] :
      CountTable).filter (fun kc => 0 < kc.2)).map Prod.fst =
      [List.replicate 3 false] ∧
    (AnalyzeResults.compute_metrics
      [([false, false, false], 100), ([false, true, true], 0)]).map
        AnalyzeResults.Metrics.n_distinct = some 2 ∧
    (1 : ℕ) < 2 := by
  refine ⟨by decide, ?_, by decide⟩
  norm_num [AnalyzeResults.compute_metrics, totalShots,
    AnalyzeResults.indexOverflow, AnalyzeResults.nQubits]

/-- C4 amended: for every CountTable with distinct keys of equal length
whose only outcome with nonzero count is the all-zero bitstring and whose
total is positive, the Observable Extractor returns p_ground = 1,
mean_density = 0, entropy within 2 eps of 0, and n_distinct equal to the
number of keys present (which is 1 exactly when no zero-count keys
accompany the all-zero key). -/
theorem c4_amended (counts : CountTable)
    (hnd : (counts.map Prod.fst).Nodup)
    (hlen : ∀ kc ∈ counts, kc.1.length = AnalyzeResults.nQubits counts)
    (hz : ∀ kc ∈ counts, kc.2 ≠ 0 →
      kc.1 = List.replicate (AnalyzeResults.nQubits counts) false)
    (htot : totalShots counts ≠ 0) :
    ∃ m : AnalyzeResults.Metrics,
      AnalyzeResults.compute_metrics counts = some m ∧
      m.ground_prob = 1 ∧ m.rydberg_density = 0 ∧
      m.n_distinct = counts.length ∧
      |m.entropy| ≤ 2 * AnalyzeResults.eps := by
  have hov : AnalyzeResults.indexOverflow counts = false := by
    simp only [AnalyzeResults.indexOverflow, List.any_eq_false]
    intro kc hkc
    rw [List.drop_eq_nil_of_le (le_of_eq (hlen kc hkc))]
    simp
  have hcm : AnalyzeResults.compute_metrics counts = some
      { rydberg_density := AnalyzeResults.meanDensity counts (totalShots counts)
        ground_prob := (getCount counts
          (List.replicate (AnalyzeResults.nQubits counts) false) : ℚ) /
            (totalShots counts : ℚ)
        entropy := AnalyzeResults.entropyOf counts (totalShots counts)
        n_distinct := counts.length
        per_qubit_excitation :=
          AnalyzeResults.perQubit counts (totalShots counts) } := by
    simp [AnalyzeResults.compute_metrics, htot, hov]
  rcases zeroOutside_decomp
      (List.replicate (AnalyzeResults.nQubits counts) false) counts hnd hz with
    hall | ⟨l₁, l₂, ht, hzz, hnotin⟩
  · exact absurd ((totalShots_eq_zero_iff counts).mpr hall) htot
  have hTq : ((totalShots counts : ℚ)) ≠ 0 := by exact_mod_cast htot
  have hTr : ((totalShots counts : ℝ)) ≠ 0 := by exact_mod_cast htot
  refine ⟨_, hcm, ?_, ?_, rfl, ?_⟩
  · have haux : ∀ (k0 : Bitstring) (T : ℕ), counts = l₁ ++ (k0, T) :: l₂ →
        k0 ∉ l₁.map Prod.fst → getCount counts k0 = T := by
      intro k0 T hteq hnot
      rw [hteq]
      exact getCount_append_notin l₁ l₂ _ _ hnot
    have hgc : getCount counts
        (List.replicate (AnalyzeResults.nQubits counts) false) =
        totalShots counts := haux _ _ ht hnotin
    show (getCount counts
        (List.replicate (AnalyzeResults.nQubits counts) false) : ℚ) /
        (totalShots counts : ℚ) = 1
    rw [hgc]
    exact div_self hTq
  · show AnalyzeResults.meanDensity counts (totalShots counts) = 0
    rw [AnalyzeResults.meanDensity]
    have hnum : (counts.map (fun kc =>
        ((kc.1.count true : ℚ) / (AnalyzeResults.nQubits counts : ℚ)) *
          (kc.2 : ℚ))).sum = 0 := by
      apply List.sum_eq_zero
      intro x hx
      obtain ⟨kc, hkc, rfl⟩ := List.mem_map.mp hx
      by_cases hc : kc.2 = 0
      · rw [hc]
        norm_num
      · rw [hz kc hkc hc, List.count_replicate]
        norm_num
    rw [hnum, zero_div]
  · show |AnalyzeResults.entropyOf counts (totalShots counts)| ≤
      2 * AnalyzeResults.eps
    have hzsum : ∀ (T : ℕ) (l : CountTable), (∀ kc ∈ l, kc.2 = 0) →
        (l.map (fun kc => ((kc.2 : ℝ) / (T : ℝ)) *
          Real.logb 2 ((kc.2 : ℝ) / (T : ℝ) +
            AnalyzeResults.eps))).sum = 0 := by
      intro T l hl
      apply List.sum_eq_zero
      intro x hx
      obtain ⟨kc, hkc, rfl⟩ := List.mem_map.mp hx
      rw [hl kc hkc]
      norm_num
    have haux : ∀ (k0 : Bitstring) (T : ℕ), T ≠ 0 →
        counts = l₁ ++ (k0, T) :: l₂ →
        AnalyzeResults.entropyOf counts T =
          -(Real.logb 2 (1 + AnalyzeResults.eps)) := by
      intro k0 T hT0 hteq
      have hTr0 : ((T : ℝ)) ≠ 0 := by exact_mod_cast hT0
      rw [AnalyzeResults.entropyOf]
      congr 1
      rw [hteq]
      rw [List.map_append, List.map_cons, List.sum_append, List.sum_cons]
      rw [hzsum T l₁ (fun kc hm => hzz kc (List.mem_append.mpr (Or.inl hm))),
        hzsum T l₂ (fun kc hm => hzz kc (List.mem_append.mpr (Or.inr hm)))]
      rw [div_self hTr0]
      ring
    have hent : AnalyzeResults.entropyOf counts (totalShots counts) =
        -(Real.logb 2 (1 + AnalyzeResults.eps)) := haux _ _ htot ht
    rw [hent, abs_neg, abs_of_nonneg logb_one_add_eps_bounds.1]
    exact logb_one_add_eps_bounds.2

/-- C4 witness: the amended statement instantiated on the single-key table
with the all-zero 3-bit key at count 100. -/
theorem c4_witness :
    ((([([false, false, false], 100)] : CountTable).map Prod.fst).Nodup ∧
      (∀ kc ∈ ([([false, false, false], 100)] : CountTable),
        kc.1.length = AnalyzeResults.nQubits [([false, false, false], 100)]) ∧
      (∀ kc ∈ ([([false, false, false], 100)] : CountTable), kc.2 ≠ 0 →
        kc.1 = List.replicate
          (AnalyzeResults.nQubits [([false, false, false], 100)]) false) ∧
      totalShots [([false, false, false], 100)] ≠ 0) ∧
    ∃ m : AnalyzeResults.Metrics,
      AnalyzeResults.compute_metrics [([false, false, false], 100)] = some m ∧
      m.ground_prob = 1 ∧ m.rydberg_density = 0 ∧
      m.n_distinct = List.length ([([false, false, false], 100)] : CountTable) ∧
      |m.entropy| ≤ 2 * AnalyzeResults.eps :=
  ⟨⟨by decide, by decide, by decide, by decide⟩,
    c4_amended _ (by decide) (by decide) (by decide) (by decide)⟩

/-- C5 counterexample: a CountTable whose two keys have lengths 1 and 2 is
not rejected: the Observable Extractor returns a numeric result for it, so
the claimed InvalidInput failure on inconsistent bitstring lengths does not
exist in the code. -/
theorem c5_counterexample :
    (([([false], 50), ([false, false], 50)] : CountTable).map
      (fun kc => kc.1.length)) = [1, 2] ∧
    (AnalyzeResults.compute_metrics
      [([false], 50), ([false, false], 50)]).isSome = true := by
  refine ⟨by decide, ?_⟩
  norm_num [AnalyzeResults.compute_metrics, totalShots,
    AnalyzeResults.indexOverflow, AnalyzeResults.nQubits]

/-- C5 amended: on a zero-shot CountTable the Observable Extractor fails
(returns no numeric result, an uncaught division-by-zero in the source, not
a named InvalidInput), and the simplified fidelity evaluators fail likewise
when called with zero shots; inconsistent key lengths are not validated. -/
theorem c5_amended (counts : CountTable) (h : totalShots counts = 0) :
    AnalyzeResults.compute_metrics counts = none ∧
    ∀ c : CountTable, Tier1V3.compute_fidelity c 0 = none ∧
      Tier1Depth.compute_fidelity c 0 = none := by
  refine ⟨by simp [AnalyzeResults.compute_metrics, h], fun c => ⟨?_, ?_⟩⟩ <;>
    simp [Tier1V3.compute_fidelity, Tier1Depth.compute_fidelity]

/-- C5 witness: the amended statement instantiated on a one-key table whose
count is 0. -/
theorem c5_witness :
    totalShots [(([false, false] : Bitstring), 0)] = 0 ∧
    (AnalyzeResults.compute_metrics [(([false, false] : Bitstring), 0)] = none ∧
      ∀ c : CountTable, Tier1V3.compute_fidelity c 0 = none ∧
        Tier1Depth.compute_fidelity c 0 = none) :=
  ⟨by decide, c5_amended _ (by decide)⟩

/-- Comparison of gamma-keyed pairs by their key, the sort order used for
sweeps before fitting and plotting. -/
def keyLE {α : Type} (p q : ℚ × α) : Prop := p.1 ≤ q.1

instance {α : Type} : DecidableRel (@keyLE α) :=
  fun p q => inferInstanceAs (Decidable (p.1 ≤ q.1))

instance {α : Type} : IsTotal (ℚ × α) keyLE :=
  ⟨fun a b => le_total a.1 b.1⟩

instance {α : Type} : IsTrans (ℚ × α) keyLE :=
  ⟨fun _ _ _ hab hbc => le_trans hab hbc⟩

namespace MergeResults

/-- One raw result record as consumed by merge_datasets
(pasqal_native/scripts/merge_results.py, lines 24-65): the fields the merge
logic reads.  A record without gamma has none; counts is none when the
record carries no counts (the source then falls back to the empty dict). -/
structure MEntry where
  gamma : Option ℚ
  status : String
  counts : Option CountTable

/-- Python round(x) with round-half-to-even tie breaking, on exact
rationals. -/
def roundHalfEven (x : ℚ) : ℤ :=
  let f : ℤ := ⌊x⌋
  let r : ℚ := x - f
  if r < 1 / 2 then f
  else if 1 / 2 < r then f + 1
  else if Even f then f else f + 1

/-- Python round(x, 4): round to four decimal places. -/
def rnd4 (x : ℚ) : ℚ := (roundHalfEven (x * 10000) : ℚ) / 10000

/-- sum((entry.get counts or the empty dict).values()). -/
def entryShots (e : MEntry) : ℕ := totalShots (e.counts.getD [])

/-- The is_better decision of merge_datasets: a new entry replaces the
current holder of its gamma key unless the current one is DONE and the new
one is not, or both are DONE and the current one has at least as many
shots. -/
def isBetter (curr e : MEntry) : Bool :=
  if curr.status = "DONE" ∧ e.status ≠ "DONE" then false
  else if curr.status = "DONE" ∧ e.status = "DONE" then
    if entryShots e ≤ entryShots curr then false else true
  else true

/-- Dict read: the entry stored at a key, none when the key is absent. -/
def lookupG : List (ℚ × MEntry) → ℚ → Option MEntry
  | [], _ => none
  | p :: m, k => if p.1 = k then some p.2 else lookupG m k

/-- Python dict write merged[g_key] = entry: replace in place when the key
exists, append otherwise. -/
def dictUpd (m : List (ℚ × MEntry)) (k : ℚ) (v : MEntry) :
    List (ℚ × MEntry) :=
  if (lookupG m k).isSome then
    m.map (fun p => if p.1 = k then (k, v) else p)
  else m ++ [(k, v)]

/-- One iteration of the merge loop of merge_datasets: skip records without
gamma, standardize gamma to its rounded key, and store the record when the
key is new or the record is better than the current holder. -/
def mergeStep (m : List (ℚ × MEntry)) (e : MEntry) : List (ℚ × MEntry) :=
  match e.gamma with
  | none => m
  | some g =>
    let gk := rnd4 g
    let e2 : MEntry := { e with gamma := some gk }
    match lookupG m gk with
    | none => dictUpd m gk e2
    | some curr => if isBetter curr e then dictUpd m gk e2 else m

/-- merge_datasets (pasqal_native/scripts/merge_results.py, lines 24-65):
fold the raw records into the dict, then sort the items ascending by the
gamma key.  The stored entries have gamma standardized to their key, so
sorting items by key is the sort of values by gamma performed in the
source. -/
def merge_datasets (raw : List MEntry) : List (ℚ × MEntry) :=
  List.insertionSort keyLE (raw.foldl mergeStep [])

/-- A key is stored exactly when the dict lookup succeeds. -/
theorem lookupG_isSome_iff (m : List (ℚ × MEntry)) (k : ℚ) :
    (lookupG m k).isSome = true ↔ k ∈ m.map Prod.fst := by
  induction m with
  | nil => simp [lookupG]
  | cons p m ih =>
    by_cases h : p.1 = k
    · simp [lookupG, h]
    · simp only [lookupG, if_neg h, List.map_cons, List.mem_cons, ih]
      constructor
      · intro hm
        exact Or.inr hm
      · intro hm
        rcases hm with he | hm
        · exact absurd he.symm h
        · exact hm

/-- A dict write never changes which keys are stored when the key is
already present. -/
theorem dictUpd_keys_present (m : List (ℚ × MEntry)) (k : ℚ) (v : MEntry)
    (h : (lookupG m k).isSome = true) :
    (dictUpd m k v).map Prod.fst = m.map Prod.fst := by
  rw [dictUpd, if_pos h, List.map_map]
  apply List.map_congr_left
  intro p _hp
  by_cases hk : p.1 = k
  · simp [hk]
  · simp [hk]

/-- A dict write preserves distinctness of the stored keys. -/
theorem dictUpd_keys_nodup (m : List (ℚ × MEntry)) (k : ℚ) (v : MEntry)
    (hnd : (m.map Prod.fst).Nodup) :
    ((dictUpd m k v).map Prod.fst).Nodup := by
  by_cases h : (lookupG m k).isSome = true
  · rw [dictUpd_keys_present m k v h]
    exact hnd
  · rw [dictUpd, if_neg h, List.map_append]
    rw [List.nodup_append]
    refine ⟨hnd, by simp, ?_⟩
    intro a ha hb
    simp only [List.map_cons, List.map_nil, List.mem_singleton] at hb
    rw [hb] at ha
    exact h ((lookupG_isSome_iff m k).mpr ha)

/-- One merge iteration preserves distinctness of the stored keys. -/
theorem mergeStep_keys_nodup (m : List (ℚ × MEntry)) (e : MEntry)
    (hnd : (m.map Prod.fst).Nodup) :
    ((mergeStep m e).map Prod.fst).Nodup := by
  rw [mergeStep]
  cases hg : e.gamma with
  | none => exact hnd
  | some g =>
    dsimp only
    cases hl : lookupG m (rnd4 g) with
    | none =>
      exact dictUpd_keys_nodup m (rnd4 g)
        { e with gamma := some (rnd4 g) } hnd
    | some curr =>
      dsimp only
      by_cases hb : isBetter curr e = true
      · rw [if_pos hb]
        exact dictUpd_keys_nodup m (rnd4 g)
          { e with gamma := some (rnd4 g) } hnd
      · rw [if_neg hb]
        exact hnd

/-- The whole merge fold preserves distinctness of the stored keys. -/
theorem mergeFold_keys_nodup (raw : List MEntry) :
    ∀ m : List (ℚ × MEntry), (m.map Prod.fst).Nodup →
    (((raw.foldl mergeStep m).map Prod.fst)).Nodup := by
  induction raw with
  | nil => intro m hnd; exact hnd
  | cons e raw ih =>
    intro m hnd
    exact ih (mergeStep m e) (mergeStep_keys_nodup m e hnd)

end MergeResults

namespace AnalyzeResults

/-- One raw record as consumed by the loop of compute_metrics: the status
and counts fields the loop filters on, and the gamma read from processed
records. -/
structure REntry where
  gamma : Option ℚ
  status : String
  counts : Option CountTable

/-- The loop and final argsort of compute_metrics
(pasqal_native/scripts/analyze_results.py, lines 76-115): records whose
status is not DONE or which carry no counts are skipped; every remaining
record contributes its (gamma, per-entry metrics) pair; the parallel metric
lists are finally sorted ascending by gamma.  A record without gamma or a
raising per-entry computation aborts the pass, embedded as none. -/
noncomputable def analyze_metrics (rs : List REntry) :
    Option (List (ℚ × Metrics)) :=
  (((rs.filter (fun (e : REntry) => e.status == "DONE" && e.counts.isSome)).mapM
      (fun (e : REntry) => e.gamma.bind (fun g => e.counts.bind (fun c =>
        (compute_metrics c).map (fun m => (g, m)))))).map
    (fun rows => List.insertionSort keyLE rows))

end AnalyzeResults

/-- C9: deduplication and ordering of sweeps: merge_datasets keys duplicate
records by their rounded gamma so each swept value is stored at most once,
and returns the sweep sorted ascending by gamma; compute_metrics likewise
sorts its extracted sweep ascending by gamma before plotting. -/
theorem c9_sorted_dedup :
    (∀ raw : List MergeResults.MEntry,
      ((MergeResults.merge_datasets raw).map Prod.fst).Nodup ∧
      List.Sorted (· ≤ ·) ((MergeResults.merge_datasets raw).map Prod.fst)) ∧
    (∀ (rs : List AnalyzeResults.REntry)
      (rows : List (ℚ × AnalyzeResults.Metrics)),
      AnalyzeResults.analyze_metrics rs = some rows →
      List.Sorted (· ≤ ·) (rows.map Prod.fst)) := by
  have hsortmap : ∀ (α : Type) (l : List (ℚ × α)),
      List.Sorted (· ≤ ·) ((List.insertionSort keyLE l).map Prod.fst) := by
    intro α l
    have hs := List.sorted_insertionSort keyLE l
    rw [List.Sorted, List.pairwise_map]
    exact hs.imp (fun hab => hab)
  constructor
  · intro raw
    constructor
    · have hperm : List.Perm
          ((MergeResults.merge_datasets raw).map Prod.fst)
          ((raw.foldl MergeResults.mergeStep []).map Prod.fst) :=
        (List.perm_insertionSort keyLE _).map Prod.fst
      exact hperm.nodup_iff.mpr
        (MergeResults.mergeFold_keys_nodup raw [] (by simp))
    · exact hsortmap MergeResults.MEntry
        (raw.foldl MergeResults.mergeStep [])
  · intro rs rows h
    rw [AnalyzeResults.analyze_metrics] at h
    rcases Option.map_eq_some'.mp h with ⟨rows0, _hm, hrows⟩
    rw [← hrows]
    exact hsortmap AnalyzeResults.Metrics rows0

/-- C9 witness: the merge statement at a concrete raw list with a duplicate
gamma, and the analysis statement at the empty record list. -/
theorem c9_witness :
    (((MergeResults.merge_datasets
      [{ gamma := some (3 / 10), status := "DONE", counts := some [([false], 5)] },
       { gamma := some (3 / 10), status := "DONE", counts := some [([false], 9)] },
       { gamma := some (1 / 10), status := "DONE", counts := some [([true], 4)] }]).map
        Prod.fst).Nodup ∧
      List.Sorted (· ≤ ·) ((MergeResults.merge_datasets
      [{ gamma := some (3 / 10), status := "DONE", counts := some [([false], 5)] },
       { gamma := some (3 / 10), status := "DONE", counts := some [([false], 9)] },
       { gamma := some (1 / 10), status := "DONE", counts := some [([true], 4)] }]).map
        Prod.fst)) ∧
    (AnalyzeResults.analyze_metrics [] = some [] ∧
      List.Sorted (· ≤ ·)
        (([] : List (ℚ × AnalyzeResults.Metrics)).map Prod.fst)) :=
  ⟨c9_sorted_dedup.1 _, rfl, c9_sorted_dedup.2 [] [] rfl⟩

namespace Tier1Analysis

/-- The data of one successful model fit as assembled by fit_models
(scripts/tier1_analysis.py, lines 55-153): fitted parameters, chi-squared
statistic, degrees of freedom, and the p-value from the chi-squared
survival function with the degrees of freedom floored at 1. -/
structure FitData where
  params : List ℝ
  chi2 : ℝ
  dof : ℤ
  p_value : ℝ

/-- The three per-model outcomes stored in the fits dict, in its iteration
order sigmoid_cfd, exponential, linear; a failed fit stores the exception
message instead of fit data. -/
structure Fits where
  sigmoid_cfd : Except String FitData
  exponential : Except String FitData
  linear : Except String FitData

/-- The sigmoid model of fit_models: f_max / (1 + exp((n - n_c) / w)). -/
noncomputable def sigmoid (n f_max n_c w : ℝ) : ℝ :=
  f_max / (1 + Real.exp ((n - n_c) / w))

/-- The exponential-decay model of fit_models: a exp(-n / n_char). -/
noncomputable def exp_decay (n a n_char : ℝ) : ℝ :=
  a * Real.exp (-n / n_char)

/-- The linear-decay model of fit_models: a - b n. -/
def linear (n a b : ℝ) : ℝ := a - b * n

/-- The weighted chi-squared statistic sum(((f - model(n)) / s)^2) over
the aligned data triples. -/
noncomputable def chi2Stat (model : ℝ → ℝ) (n f s : List ℝ) : ℝ :=
  (((n.zip f).zip s).map (fun p => ((p.1.2 - model p.1.1) / p.2) ^ 2)).sum

/-- np.where(s < 0.01, 0.05, s) of fit_models line 78: every sigma entry
below 0.01 is replaced by 0.05. -/
noncomputable def sigmaAdjust (s : List ℝ) : List ℝ :=
  s.map (fun x => if x < 1 / 100 then 1 / 20 else x)

/-- The scipy curve_fit collaborator for the three-parameter sigmoid: from
the data arrays, either optimal parameters or the exception message. -/
def Oracle3 : Type := List ℝ → List ℝ → List ℝ → Except String (ℝ × ℝ × ℝ)

/-- The scipy curve_fit collaborator for a two-parameter model. -/
def Oracle2 : Type := List ℝ → List ℝ → List ℝ → Except String (ℝ × ℝ)

/-- The scipy.stats chi-squared survival collaborator: 1 - cdf(x, dof). -/
def SurvivalFn : Type := ℝ → ℤ → ℝ

/-- fit_models (scripts/tier1_analysis.py, lines 55-153): replace sigmas
below 0.01 by 0.05, then fit each of the three models inside its own
try-block: a curve_fit failure is recorded as that models error outcome
while the remaining models are still fitted; a success stores the
parameters, the chi-squared statistic against the adjusted sigmas,
dof = n_points minus the parameter count, and the p-value from the
survival function with dof floored at 1.  The scipy optimizer and survival
function are external collaborators passed in as arguments; each oracle
receives the adjusted sigmas, as curve_fit does in the source. -/
noncomputable def fit_models (sf : SurvivalFn) (oSig : Oracle3)
    (oExp oLin : Oracle2) (cx f s : List ℝ) : Fits :=
  let s2 := sigmaAdjust s
  { sigmoid_cfd :=
      match oSig cx f s2 with
      | Except.error e => Except.error e
      | Except.ok (fm, nc, w) =>
        let c := chi2Stat (fun x => sigmoid x fm nc w) cx f s2
        Except.ok
          { params := [fm, nc, w]
            chi2 := c
            dof := (cx.length : ℤ) - 3
            p_value := sf c (max ((cx.length : ℤ) - 3) 1) }
    exponential :=
      match oExp cx f s2 with
      | Except.error e => Except.error e
      | Except.ok (a, nch) =>
        let c := chi2Stat (fun x => exp_decay x a nch) cx f s2
        Except.ok
          { params := [a, nch]
            chi2 := c
            dof := (cx.length : ℤ) - 2
            p_value := sf c (max ((cx.length : ℤ) - 2) 1) }
    linear :=
      match oLin cx f s2 with
      | Except.error e => Except.error e
      | Except.ok (a, b) =>
        let c := chi2Stat (fun x => linear x a b) cx f s2
        Except.ok
          { params := [a, b]
            chi2 := c
            dof := (cx.length : ℤ) - 2
            p_value := sf c (max ((cx.length : ℤ) - 2) 1) } }

/-- One fits-dict entry retained by the valid_fits comprehension. -/
def okEntries (nm : String) (e : Except String FitData) :
    List (String × FitData) :=
  match e with
  | Except.ok d => [(nm, d)]
  | Except.error _ => []

/-- valid_fits of main (scripts/tier1_analysis.py, line 278): the fits
that carry no error, in the dict iteration order. -/
def validFits (F : Fits) : List (String × FitData) :=
  okEntries "sigmoid_cfd" F.sigmoid_cfd ++
    okEntries "exponential" F.exponential ++ okEntries "linear" F.linear

/-- min(valid_fits.items(), key = chi2) of main (line 280), guarded by the
emptiness check of line 279: none when no fit converged; otherwise the
first entry with minimal chi-squared, as Python min returns the earliest
minimum. -/
noncomputable def bestFit (F : Fits) : Option (String × FitData) :=
  (validFits F).foldl (fun acc p =>
    match acc with
    | none => some p
    | some q => if p.2.chi2 < q.2.chi2 then some p else some q) none

end Tier1Analysis

/-- Specification of the first-minimum fold underlying bestFit: a produced
result is drawn from the list (or the accumulator) and its chi-squared is
minimal among the list entries and the accumulator. -/
theorem foldl_min_spec (l : List (String × Tier1Analysis.FitData)) :
    ∀ (a : Option (String × Tier1Analysis.FitData))
      (p : String × Tier1Analysis.FitData),
    l.foldl (fun acc q =>
      match acc with
      | none => some q
      | some r => if q.2.chi2 < r.2.chi2 then some q else some r) a = some p →
    (p ∈ l ∨ a = some p) ∧ (∀ q ∈ l, p.2.chi2 ≤ q.2.chi2) ∧
      (∀ x, a = some x → p.2.chi2 ≤ x.2.chi2) := by
  induction l with
  | nil =>
    intro a p h
    simp only [List.foldl_nil] at h
    refine ⟨Or.inr h, by simp, ?_⟩
    intro x hx
    rw [h] at hx
    injection hx with he
    rw [he]
  | cons q l ih =>
    intro a p h
    rw [List.foldl_cons] at h
    cases a with
    | none =>
      obtain ⟨hm, hle, hacc⟩ := ih (some q) p h
      have hpq : p.2.chi2 ≤ q.2.chi2 := hacc q rfl
      refine ⟨?_, ?_, ?_⟩
      · rcases hm with hm | he
        · exact Or.inl (List.mem_cons_of_mem _ hm)
        · injection he with he
          exact Or.inl (he ▸ List.mem_cons_self _ _)
      · intro r hr
        rcases List.mem_cons.mp hr with he | hm
        · rw [he]; exact hpq
        · exact hle r hm
      · intro x hx
        cases hx
    | some b =>
      by_cases hqb : q.2.chi2 < b.2.chi2
      · rw [show (match some b with
            | none => some q
            | some r => if q.2.chi2 < r.2.chi2 then some q else some r) =
            if q.2.chi2 < b.2.chi2 then some q else some b from rfl,
          if_pos hqb] at h
        obtain ⟨hm, hle, hacc⟩ := ih (some q) p h
        have hpq : p.2.chi2 ≤ q.2.chi2 := hacc q rfl
        refine ⟨?_, ?_, ?_⟩
        · rcases hm with hm | he
          · exact Or.inl (List.mem_cons_of_mem _ hm)
          · injection he with he
            exact Or.inl (he ▸ List.mem_cons_self _ _)
        · intro r hr
          rcases List.mem_cons.mp hr with he | hm
          · rw [he]; exact hpq
          · exact hle r hm
        · intro x hx
          injection hx with hx
          rw [← hx]
          exact le_trans hpq (le_of_lt hqb)
      · rw [show (match some b with
            | none => some q
            | some r => if q.2.chi2 < r.2.chi2 then some q else some r) =
            if q.2.chi2 < b.2.chi2 then some q else some b from rfl,
          if_neg hqb] at h
        push_neg at hqb
        obtain ⟨hm, hle, hacc⟩ := ih (some b) p h
        have hpb : p.2.chi2 ≤ b.2.chi2 := hacc b rfl
        refine ⟨?_, ?_, ?_⟩
        · rcases hm with hm | he
          · exact Or.inl (List.mem_cons_of_mem _ hm)
          · exact Or.inr he
        · intro r hr
          rcases List.mem_cons.mp hr with he | hm
          · rw [he]; exact le_trans hpb hqb
          · exact hle r hm
        · intro x hx
          injection hx with hx
          rw [← hx]
          exact hpb

/-- Membership in the valid-fits list names the originating field. -/
theorem mem_validFits (F : Tier1Analysis.Fits) (nm : String)
    (d : Tier1Analysis.FitData) :
    (nm, d) ∈ Tier1Analysis.validFits F ↔
    (nm = "sigmoid_cfd" ∧ F.sigmoid_cfd = Except.ok d) ∨
    (nm = "exponential" ∧ F.exponential = Except.ok d) ∨
    (nm = "linear" ∧ F.linear = Except.ok d) := by
  obtain ⟨fs, fe, fl⟩ := F
  cases fs <;> cases fe <;> cases fl <;>
    simp [Tier1Analysis.validFits, Tier1Analysis.okEntries, Prod.ext_iff,
      and_comm, eq_comm]

/-- C6: model fitting is failure-isolated and the best fit is the minimal
converged chi-squared: each fits-dict entry depends only on its own
optimizer call, an optimizer failure is recorded as that models error
outcome, and when main selects a best fit it is a converged model whose
chi-squared is at most that of every converged model. -/
theorem c6_fit_isolation_best :
    (∀ (sf : Tier1Analysis.SurvivalFn) (o1 o1b : Tier1Analysis.Oracle3)
      (o2 o2b o3 o3b : Tier1Analysis.Oracle2) (cx f s : List ℝ),
      (Tier1Analysis.fit_models sf o1 o2 o3 cx f s).sigmoid_cfd =
        (Tier1Analysis.fit_models sf o1 o2b o3b cx f s).sigmoid_cfd ∧
      (Tier1Analysis.fit_models sf o1 o2 o3 cx f s).exponential =
        (Tier1Analysis.fit_models sf o1b o2 o3b cx f s).exponential ∧
      (Tier1Analysis.fit_models sf o1 o2 o3 cx f s).linear =
        (Tier1Analysis.fit_models sf o1b o2b o3 cx f s).linear) ∧
    (∀ (sf : Tier1Analysis.SurvivalFn) (o1 : Tier1Analysis.Oracle3)
      (o2 o3 : Tier1Analysis.Oracle2) (cx f s : List ℝ) (msg : String),
      o1 cx f (Tier1Analysis.sigmaAdjust s) = Except.error msg →
      (Tier1Analysis.fit_models sf o1 o2 o3 cx f s).sigmoid_cfd =
        Except.error msg) ∧
    (∀ (F : Tier1Analysis.Fits) (nm : String) (d : Tier1Analysis.FitData),
      Tier1Analysis.bestFit F = some (nm, d) →
      ((nm = "sigmoid_cfd" ∧ F.sigmoid_cfd = Except.ok d) ∨
       (nm = "exponential" ∧ F.exponential = Except.ok d) ∨
       (nm = "linear" ∧ F.linear = Except.ok d)) ∧
      ∀ q ∈ Tier1Analysis.validFits F, d.chi2 ≤ q.2.chi2) := by
  refine ⟨fun sf o1 o1b o2 o2b o3 o3b cx f s => ⟨rfl, rfl, rfl⟩, ?_, ?_⟩
  · intro sf o1 o2 o3 cx f s msg h
    simp only [Tier1Analysis.fit_models]
    rw [h]
  · intro F nm d h
    unfold Tier1Analysis.bestFit at h
    obtain ⟨hm, hle, _⟩ := foldl_min_spec (Tier1Analysis.validFits F) none (nm, d) h
    rcases hm with hm | he
    · exact ⟨(mem_validFits F nm d).mp hm, fun q hq => hle q hq⟩
    · cases he

/-- A curve_fit stand-in that always fails, exercising the per-model
failure path. -/
def oracle3Fail : Tier1Analysis.Oracle3 :=
  fun _ _ _ => Except.error "no convergence"

/-- A curve_fit stand-in returning fixed two-model parameters. -/
def oracle2Const : Tier1Analysis.Oracle2 :=
  fun _ _ _ => Except.ok (1, 10)

/-- A curve_fit stand-in that always fails with a singular-matrix
message. -/
def oracle2Fail : Tier1Analysis.Oracle2 :=
  fun _ _ _ => Except.error "singular matrix"

/-- A survival-function stand-in. -/
def survZero : Tier1Analysis.SurvivalFn := fun _ _ => 0

/-- C6 witness: on empty data with a failing sigmoid optimizer, a
succeeding exponential optimizer and a failing linear optimizer, the
sigmoid failure is recorded as its error outcome and the best fit is the
converged exponential model. -/
theorem c6_witness :
    (oracle3Fail [] [] (Tier1Analysis.sigmaAdjust []) =
        Except.error "no convergence" ∧
      (Tier1Analysis.fit_models survZero oracle3Fail oracle2Const oracle2Fail
        [] [] []).sigmoid_cfd = Except.error "no convergence") ∧
    ∃ nm d,
      Tier1Analysis.bestFit (Tier1Analysis.fit_models survZero oracle3Fail
        oracle2Const oracle2Fail [] [] []) = some (nm, d) ∧
      ((nm = "sigmoid_cfd" ∧
          (Tier1Analysis.fit_models survZero oracle3Fail oracle2Const
            oracle2Fail [] [] []).sigmoid_cfd = Except.ok d) ∨
       (nm = "exponential" ∧
          (Tier1Analysis.fit_models survZero oracle3Fail oracle2Const
            oracle2Fail [] [] []).exponential = Except.ok d) ∨
       (nm = "linear" ∧
          (Tier1Analysis.fit_models survZero oracle3Fail oracle2Const
            oracle2Fail [] [] []).linear = Except.ok d)) ∧
      ∀ q ∈ Tier1Analysis.validFits (Tier1Analysis.fit_models survZero
        oracle3Fail oracle2Const oracle2Fail [] [] []), d.chi2 ≤ q.2.chi2 :=
  ⟨⟨rfl, c6_fit_isolation_best.2.1 survZero oracle3Fail oracle2Const
      oracle2Fail [] [] [] "no convergence" rfl⟩,
    "exponential", _, rfl,
    c6_fit_isolation_best.2.2 _ "exponential" _ rfl⟩

/-- Adjusting sigmas twice is the same as adjusting once: the replacement
value 0.05 is itself at least 0.01. -/
theorem sigmaAdjust_idem (s : List ℝ) :
    Tier1Analysis.sigmaAdjust (Tier1Analysis.sigmaAdjust s) =
      Tier1Analysis.sigmaAdjust s := by
  simp only [Tier1Analysis.sigmaAdjust, List.map_map]
  apply List.map_congr_left
  intro x _
  show (if (if x < 1 / 100 then (1 / 20 : ℝ) else x) < 1 / 100 then (1 / 20 : ℝ)
      else if x < 1 / 100 then (1 / 20 : ℝ) else x) =
    if x < 1 / 100 then (1 / 20 : ℝ) else x
  by_cases h : x < 1 / 100
  · rw [if_pos h]
    norm_num
  · rw [if_neg h, if_neg h]

/-- C10: fit_models computes all three fits from the replaced sigma vector:
running it on the raw sigmas equals running it on the adjusted sigmas,
every adjusted entry is at least 0.01, and entrywise the adjustment
replaces a value below 0.01 by 0.05 and keeps any other value. -/
theorem c10_sigma_floor :
    (∀ (sf : Tier1Analysis.SurvivalFn) (o1 : Tier1Analysis.Oracle3)
      (o2 o3 : Tier1Analysis.Oracle2) (cx f s : List ℝ),
      Tier1Analysis.fit_models sf o1 o2 o3 cx f s =
        Tier1Analysis.fit_models sf o1 o2 o3 cx f
          (Tier1Analysis.sigmaAdjust s)) ∧
    (∀ s : List ℝ, ∀ x ∈ Tier1Analysis.sigmaAdjust s, (1 / 100 : ℝ) ≤ x) ∧
    (∀ (s : List ℝ) (i : ℕ), i < s.length →
      (s.getD i 0 < 1 / 100 →
        (Tier1Analysis.sigmaAdjust s).getD i 0 = 1 / 20) ∧
      (¬ s.getD i 0 < 1 / 100 →
        (Tier1Analysis.sigmaAdjust s).getD i 0 = s.getD i 0)) := by
  refine ⟨?_, ?_, ?_⟩
  · intro sf o1 o2 o3 cx f s
    simp only [Tier1Analysis.fit_models, sigmaAdjust_idem]
  · intro s x hx
    simp only [Tier1Analysis.sigmaAdjust, List.mem_map] at hx
    obtain ⟨y, _hy, hexy⟩ := hx
    rw [← hexy]
    by_cases h : y < 1 / 100
    · rw [if_pos h]
      norm_num
    · rw [if_neg h]
      exact le_of_not_lt h
  · intro s i hi
    have hget : ∀ d : ℝ, (Tier1Analysis.sigmaAdjust s).getD i d =
        if s.getD i 0 < 1 / 100 then (1 / 20 : ℝ) else s.getD i 0 := by
      intro d
      have hlen : i < (Tier1Analysis.sigmaAdjust s).length := by
        simpa [Tier1Analysis.sigmaAdjust] using hi
      rw [List.getD_eq_getElem _ _ hlen, List.getD_eq_getElem _ _ hi]
      simp [Tier1Analysis.sigmaAdjust]
    constructor
    · intro hlt
      rw [hget 0, if_pos hlt]
    · intro hge
      rw [hget 0, if_neg hge]

/-- C10 witness: the floor statement instantiated on the sigma vector with
entries 0.005 and 3, at index 0. -/
theorem c10_witness :
    (0 : ℕ) < ([(1 / 200 : ℝ), 3]).length ∧
    ((([(1 / 200 : ℝ), 3]).getD 0 0 < 1 / 100 →
      (Tier1Analysis.sigmaAdjust [(1 / 200 : ℝ), 3]).getD 0 0 = 1 / 20) ∧
     (¬ ([(1 / 200 : ℝ), 3]).getD 0 0 < 1 / 100 →
      (Tier1Analysis.sigmaAdjust [(1 / 200 : ℝ), 3]).getD 0 0 =
        ([(1 / 200 : ℝ), 3]).getD 0 0)) :=
  ⟨by norm_num, c10_sigma_floor.2.2 [(1 / 200 : ℝ), 3] 0 (by norm_num)⟩

namespace Tier1Analysis

/-- One sweep record as read by main (scripts/tier1_analysis.py, lines
255-259): each field may be absent from the loaded JSON record. -/
structure ResultRec where
  cx_total : Option ℚ
  fidelity : Option ℚ
  sigma : Option ℚ
  total_qubits : Option ℚ

/-- The array extraction of main (lines 256-259): r.get with the numeric
defaults 0 for cx_total, 1.0 for fidelity and 0.05 for sigma when a field
is missing from a record. -/
def extract_arrays (results : List ResultRec) :
    List ℚ × List ℚ × List ℚ :=
  (results.map (fun r => r.cx_total.getD 0),
   results.map (fun r => r.fidelity.getD 1),
   results.map (fun r => r.sigma.getD (1 / 20)))

/-- main (line 266) then calls fit_models on exactly these extracted
arrays, after the float conversion performed by np.array inside
fit_models. -/
noncomputable def main_fits (sf : SurvivalFn) (oSig : Oracle3)
    (oExp oLin : Oracle2) (results : List ResultRec) : Fits :=
  fit_models sf oSig oExp oLin
    ((extract_arrays results).1.map (fun q => (q : ℝ)))
    ((extract_arrays results).2.1.map (fun q => (q : ℝ)))
    ((extract_arrays results).2.2.map (fun q => (q : ℝ)))

end Tier1Analysis

/-- C7: main coerces missing data points to defaults that reach the Model
Fitter: a record with no fidelity contributes the default value 1 to the
y-array, and on the concrete record with cx_total 10 and no fidelity or
sigma the extracted arrays are ([10], [1], [0.05]) and are passed as the
numerical inputs of fit_models, contradicting the requirement that missing
points stay absent from the fit inputs. -/
theorem c7_default_coercion :
    (∀ (results : List Tier1Analysis.ResultRec)
      (r : Tier1Analysis.ResultRec), r ∈ results → r.fidelity = none →
      (1 : ℚ) ∈ (Tier1Analysis.extract_arrays results).2.1) ∧
    Tier1Analysis.extract_arrays
      [{ cx_total := some 10, fidelity := none, sigma := none,
         total_qubits := some 3 }] = ([10], [1], [1 / 20]) ∧
    (∀ (sf : Tier1Analysis.SurvivalFn) (o1 : Tier1Analysis.Oracle3)
      (o2 o3 : Tier1Analysis.Oracle2),
      Tier1Analysis.main_fits sf o1 o2 o3
        [{ cx_total := some 10, fidelity := none, sigma := none,
           total_qubits := some 3 }] =
      Tier1Analysis.fit_models sf o1 o2 o3 [(10 : ℝ)] [(1 : ℝ)]
        [(1 / 20 : ℝ)]) := by
  refine ⟨?_, rfl, ?_⟩
  · intro results r hr hfid
    simp only [Tier1Analysis.extract_arrays, List.mem_map]
    exact ⟨r, hr, by rw [hfid]; rfl⟩
  · intro sf o1 o2 o3
    have h10 : (((10 : ℚ) : ℝ)) = 10 := by norm_num
    have h1 : (((1 : ℚ) : ℝ)) = 1 := by norm_num
    have h20 : (((1 / 20 : ℚ) : ℝ)) = 1 / 20 := by norm_num
    simp [Tier1Analysis.main_fits, Tier1Analysis.extract_arrays, h10, h1, h20]

/-- C7 witness: the coercion statement instantiated on the singleton list
of the record with no fidelity field. -/
theorem c7_witness :
    (({ cx_total := some 10, fidelity := none, sigma := none,
        total_qubits := some 3 } : Tier1Analysis.ResultRec) ∈
      [({ cx_total := some 10, fidelity := none, sigma := none,
          total_qubits := some 3 } : Tier1Analysis.ResultRec)] ∧
      ({ cx_total := some 10, fidelity := none, sigma := none,
         total_qubits := some 3 } : Tier1Analysis.ResultRec).fidelity =
        none) ∧
    (1 : ℚ) ∈ (Tier1Analysis.extract_arrays
      [({ cx_total := some 10, fidelity := none, sigma := none,
          total_qubits := some 3 } : Tier1Analysis.ResultRec)]).2.1 :=
  ⟨⟨List.mem_singleton.mpr rfl, rfl⟩,
    c7_default_coercion.1 _ _ (List.mem_singleton.mpr rfl) rfl⟩
